import Mathlib

/-!
Verification of the template synchronization engine of `claude-yolo`
(`src/claude_yolo/update.py`), shallowly embedded in Lean.

The engine works on two directory trees:
* the template tree, enumerated by `templates_dir.rglob("*")` — modelled as a
  list of (relative path, byte content) pairs in enumeration order;
* the instance tree (`.claude-yolo`) — modelled as an association list from
  relative paths to byte contents, looked up by first match; writing a file
  conses a new binding in front (later lookups see the new content).

Relative paths are lists of segments; `Path.name` in Python is the last
segment.  Byte contents are lists of naturals (`read_bytes`).  Console output
is not modelled; the observable fields of a run (applied/failed files, backup
snapshot, printed counts and warn list) are collected in `UpdateResult`.
-/

set_option autoImplicit false

namespace ClaudeYolo

/-- A template-relative file path, as its list of segments. -/
abbrev Path := List String

/-- File contents as a byte sequence (`read_bytes`). -/
abbrev Content := List Nat

/-- A file tree as an association list from relative path to content.
Lookup returns the first binding, mirroring a filesystem where each path
holds one file. -/
abbrev Tree := List (Path × Content)

/-- `rel_path.name`: the last path segment (the filename). -/
def pathName (p : Path) : String := p.getLastD ""

/-- Files that should never be overwritten (user-specific); `NEVER_UPDATE`
in `update.py`. -/
def NEVER_UPDATE : List String := [".env", ".env.local"]

/-- Files that likely have customizations (warn before updating);
`WARN_BEFORE_UPDATE` in `update.py`. -/
def WARN_BEFORE_UPDATE : List String := ["Dockerfile", "docker-compose.yml"]

/-- Look a path up in a tree: `existing_file.exists()` / `read_bytes()`. -/
def lookupTree : Tree → Path → Option Content
  | [], _ => none
  | (q, c) :: rest, p => if p = q then some c else lookupTree rest p

/-- Result of `categorize_files`: the four path lists of the returned dict. -/
structure CatResult where
  new : List Path
  changed : List Path
  unchanged : List Path
  never_update : List Path
deriving DecidableEq, Repr

/-- The empty classification the loop starts from. -/
def CatResult.empty : CatResult := ⟨[], [], [], []⟩

/-- One iteration of the `for template_file in templates_dir.rglob("*")` loop
of `categorize_files`: policy check first, then existence, then byte
comparison. -/
def categorizeStep (inst : Tree) (acc : CatResult) (tf : Path × Content) :
    CatResult :=
  if pathName tf.1 ∈ NEVER_UPDATE then
    { acc with never_update := acc.never_update ++ [tf.1] }
  else
    match lookupTree inst tf.1 with
    | none => { acc with new := acc.new ++ [tf.1] }
    | some c =>
      if tf.2 ≠ c then { acc with changed := acc.changed ++ [tf.1] }
      else { acc with unchanged := acc.unchanged ++ [tf.1] }

/-- `categorize_files(templates_dir, claude_dir)`: fold the loop body over the
template files in enumeration order. -/
def categorize_files (tmpl : Tree) (inst : Tree) : CatResult :=
  tmpl.foldl (categorizeStep inst) CatResult.empty

/-- All four categories concatenated, for the partition invariant. -/
def CatResult.allPaths (r : CatResult) : List Path :=
  r.new ++ r.changed ++ r.unchanged ++ r.never_update

/-- `update_file(template_file, target_file)`: write the template content at
the target path (parent-directory creation has no counterpart in the flat
tree model). -/
def update_file (inst : Tree) (p : Path) (c : Content) : Tree :=
  (p, c) :: inst

/-- The apply loop of `update_templates`: for each planned path, try the copy;
on failure (`copyFails p = true`, the `except` branch) record the path and
continue; on success record the path and write the file.  Returns the final
tree, the applied paths and the failed paths, each in plan order. -/
def applyLoop (tmpl : Tree) (copyFails : Path → Bool) :
    List Path → Tree → Tree × List Path × List Path
  | [], inst => (inst, [], [])
  | p :: rest, inst =>
    if copyFails p then
      let r := applyLoop tmpl copyFails rest inst
      (r.1, r.2.1, p :: r.2.2)
    else
      let inst1 := match lookupTree tmpl p with
        | some c => update_file inst p c
        | none => inst
      let r := applyLoop tmpl copyFails rest inst1
      (r.1, p :: r.2.1, r.2.2)

/-- How a run of `update_templates` ended. -/
inductive Outcome where
  | upToDate
  | cancelled
  | backupFailed
  | completed
deriving DecidableEq, Repr

/-- The observable state of a finished `update_templates` run: the final
instance tree, the backup snapshot (contents of `.claude-yolo` copied by
`create_backup` before the apply phase, `none` when no backup was made),
the per-file success/failure lines of the apply loop, the printed
`updated_count`, and the printed `custom_files` warn list. -/
structure UpdateResult where
  outcome : Outcome
  instanceAfter : Tree
  backup : Option Tree
  applied : List Path
  failed : List Path
  updatedCount : Nat
  customFiles : List Path
deriving DecidableEq, Repr

/-- The `custom_files` list of `update_templates`: paths of `new ++ changed`
whose filename is in `WARN_BEFORE_UPDATE` (computed before the apply phase). -/
def customFilesOf (files : CatResult) : List Path :=
  (files.new ++ files.changed).filter
    (fun f => decide (pathName f ∈ WARN_BEFORE_UPDATE))

/-- `update_templates()` over explicit trees.  The external preconditions
(`check_initialized`, templates directory present) are modelled by the two
trees being supplied.  `confirm` is the answer to `typer.confirm`;
`backupFails` models `shutil.copytree` raising inside `create_backup`
(the exception propagates before any file is written); `copyFails p` models
`update_file` raising on path `p` (the per-file `except` branch). -/
def update_templates (tmpl : Tree) (inst : Tree) (confirm : Bool)
    (backupFails : Bool) (copyFails : Path → Bool) : UpdateResult :=
  if (categorize_files tmpl inst).new = []
      ∧ (categorize_files tmpl inst).changed = [] then
    ⟨.upToDate, inst, none, [], [], 0, []⟩
  else if confirm = false then
    ⟨.cancelled, inst, none, [], [], 0, customFilesOf (categorize_files tmpl inst)⟩
  else if backupFails then
    ⟨.backupFailed, inst, none, [], [], 0,
      customFilesOf (categorize_files tmpl inst)⟩
  else
    ⟨.completed,
      (applyLoop tmpl copyFails ((categorize_files tmpl inst).new
        ++ (categorize_files tmpl inst).changed) inst).1,
      some inst,
      (applyLoop tmpl copyFails ((categorize_files tmpl inst).new
        ++ (categorize_files tmpl inst).changed) inst).2.1,
      (applyLoop tmpl copyFails ((categorize_files tmpl inst).new
        ++ (categorize_files tmpl inst).changed) inst).2.2,
      (applyLoop tmpl copyFails ((categorize_files tmpl inst).new
        ++ (categorize_files tmpl inst).changed) inst).2.1.length,
      customFilesOf (categorize_files tmpl inst)⟩

/-! ### Counting paths, and the classification fold -/

/-- Number of occurrences of a path in a list of paths. -/
def pathCount (p : Path) : List Path → Nat
  | [] => 0
  | q :: rest => (if q = p then 1 else 0) + pathCount p rest

theorem pathCount_append (p : Path) (l₁ l₂ : List Path) :
    pathCount p (l₁ ++ l₂) = pathCount p l₁ + pathCount p l₂ := by
  induction l₁ with
  | nil => simp [pathCount]
  | cons q rest ih => simp [pathCount, ih]; ring

theorem pathCount_pos_of_mem {p : Path} {l : List Path} (h : p ∈ l) :
    0 < pathCount p l := by
  induction l with
  | nil => cases h
  | cons q rest ih =>
    rcases List.mem_cons.mp h with rfl | h
    · simp [pathCount]
    · have := ih h
      simp [pathCount]
      omega

theorem mem_of_pathCount_pos {p : Path} {l : List Path}
    (h : 0 < pathCount p l) : p ∈ l := by
  induction l with
  | nil => simp [pathCount] at h
  | cons q rest ih =>
    by_cases hq : q = p
    · exact hq ▸ List.mem_cons_self q rest
    · simp [pathCount, hq] at h
      exact List.mem_cons_of_mem _ (ih h)

theorem pathCount_eq_zero_of_not_mem {p : Path} {l : List Path}
    (h : p ∉ l) : pathCount p l = 0 := by
  induction l with
  | nil => rfl
  | cons q rest ih =>
    have hq : q ≠ p := fun e => h (e ▸ List.mem_cons_self q rest)
    simp [pathCount, hq]
    exact ih (fun m => h (List.mem_cons_of_mem _ m))

theorem pathCount_eq_one_of_nodup_mem {p : Path} {l : List Path}
    (hN : l.Nodup) (h : p ∈ l) : pathCount p l = 1 := by
  induction l with
  | nil => cases h
  | cons q rest ih =>
    rcases List.nodup_cons.mp hN with ⟨hq, hrest⟩
    rcases List.mem_cons.mp h with rfl | h
    · simp [pathCount, pathCount_eq_zero_of_not_mem hq]
    · have hqp : q ≠ p := fun e => hq (e ▸ h)
      simp [pathCount, hqp, ih hrest h]

theorem count_allPaths_step (inst : Tree) (acc : CatResult) (t : Path × Content)
    (p : Path) :
    pathCount p (categorizeStep inst acc t).allPaths
      = pathCount p acc.allPaths + (if t.1 = p then 1 else 0) := by
  unfold categorizeStep
  split
  · simp only [CatResult.allPaths, pathCount_append]
    simp [pathCount]
    ring
  · split
    · simp only [CatResult.allPaths, pathCount_append]
      simp [pathCount]
      ring
    · split <;>
        (simp only [CatResult.allPaths, pathCount_append]
         simp [pathCount]
         ring)

theorem count_allPaths_foldl (inst : Tree) (l : Tree) (acc : CatResult)
    (p : Path) :
    pathCount p (l.foldl (categorizeStep inst) acc).allPaths
      = pathCount p acc.allPaths + pathCount p (l.map Prod.fst) := by
  induction l generalizing acc with
  | nil => simp [pathCount]
  | cons t rest ih =>
    simp only [List.foldl_cons, List.map_cons]
    rw [ih, count_allPaths_step]
    simp [pathCount]
    ring

theorem count_allPaths_one (tmpl inst : Tree) (p : Path)
    (hN : (tmpl.map Prod.fst).Nodup) (hp : p ∈ tmpl.map Prod.fst) :
    pathCount p (categorize_files tmpl inst).allPaths = 1 := by
  unfold categorize_files
  rw [count_allPaths_foldl]
  simpa [CatResult.empty, CatResult.allPaths, pathCount] using
    pathCount_eq_one_of_nodup_mem hN hp

/-- **C1.** For every template tree (with distinct relative paths, as a
filesystem enumeration yields) and instance tree, `categorize_files` produces
a partition: each template-relative path occurs exactly once across the four
lists `new`, `changed`, `unchanged`, `never_update` — it is assigned to
exactly one category, and appears in no other. -/
theorem categorize_files_partition (tmpl inst : Tree) (p : Path)
    (hN : (tmpl.map Prod.fst).Nodup) (hp : p ∈ tmpl.map Prod.fst) :
    pathCount p (categorize_files tmpl inst).allPaths = 1 :=
  count_allPaths_one tmpl inst p hN hp

/-! ### A closed form for the classification -/

/-- Does the classification loop send this template entry to `never_update`? -/
def neverB (t : Path × Content) : Bool :=
  decide (pathName t.1 ∈ NEVER_UPDATE)

/-- Does the classification loop send this template entry to `new`? -/
def newB (inst : Tree) (t : Path × Content) : Bool :=
  !neverB t && (lookupTree inst t.1).isNone

/-- Does the classification loop send this template entry to `changed`? -/
def changedB (inst : Tree) (t : Path × Content) : Bool :=
  !neverB t &&
    (match lookupTree inst t.1 with
     | some c => decide (t.2 ≠ c)
     | none => false)

/-- Does the classification loop send this template entry to `unchanged`? -/
def unchangedB (inst : Tree) (t : Path × Content) : Bool :=
  !neverB t &&
    (match lookupTree inst t.1 with
     | some c => decide (t.2 = c)
     | none => false)

theorem foldl_categorizeStep_eq (inst : Tree) (l : Tree) (acc : CatResult) :
    l.foldl (categorizeStep inst) acc =
      ⟨acc.new ++ (l.filter (newB inst)).map Prod.fst,
       acc.changed ++ (l.filter (changedB inst)).map Prod.fst,
       acc.unchanged ++ (l.filter (unchangedB inst)).map Prod.fst,
       acc.never_update ++ (l.filter neverB).map Prod.fst⟩ := by
  induction l generalizing acc with
  | nil => simp
  | cons t rest ih =>
    simp only [List.foldl_cons]
    rw [ih]
    by_cases h1 : pathName t.1 ∈ NEVER_UPDATE
    · simp [categorizeStep, h1, neverB, newB, changedB, unchangedB,
        List.filter_cons]
    · cases h2 : lookupTree inst t.1 with
      | none =>
        simp [categorizeStep, h1, h2, neverB, newB, changedB, unchangedB,
          List.filter_cons]
      | some c =>
        by_cases h3 : t.2 = c
        · simp [categorizeStep, h1, h2, h3, neverB, newB, changedB,
            unchangedB, List.filter_cons]
        · simp [categorizeStep, h1, h2, h3, neverB, newB, changedB,
            unchangedB, List.filter_cons]

/-- `categorize_files` in closed form: each category is the filtered template
enumeration, mapped to paths, in enumeration order. -/
theorem categorize_files_eq (tmpl inst : Tree) :
    categorize_files tmpl inst =
      ⟨(tmpl.filter (newB inst)).map Prod.fst,
       (tmpl.filter (changedB inst)).map Prod.fst,
       (tmpl.filter (unchangedB inst)).map Prod.fst,
       (tmpl.filter neverB).map Prod.fst⟩ := by
  unfold categorize_files
  rw [foldl_categorizeStep_eq]
  rfl

/-- Every path classified `new` or `changed` has a filename outside
`NEVER_UPDATE` (the policy check comes first in the loop). -/
theorem name_not_never_of_mem_plan {tmpl inst : Tree} {p : Path}
    (h : p ∈ (categorize_files tmpl inst).new
          ++ (categorize_files tmpl inst).changed) :
    pathName p ∉ NEVER_UPDATE := by
  rw [categorize_files_eq] at h
  rcases List.mem_append.mp h with h | h <;>
  · rcases List.mem_map.mp h with ⟨t, ht, rfl⟩
    have := List.of_mem_filter ht
    simp [newB, changedB, neverB] at this
    exact this.1

/-! ### The apply loop -/

theorem applyLoop_lookup_of_not_mem (tmpl : Tree) (f : Path → Bool)
    (plan : List Path) (inst : Tree) (p : Path) (h : p ∉ plan) :
    lookupTree (applyLoop tmpl f plan inst).1 p = lookupTree inst p := by
  induction plan generalizing inst with
  | nil => rfl
  | cons q rest ih =>
    have hq : q ≠ p := fun e => h (e ▸ List.mem_cons_self q rest)
    have hr : p ∉ rest := fun m => h (List.mem_cons_of_mem _ m)
    cases hf : f q with
    | true => simp only [applyLoop, hf, if_pos]; exact ih _ hr
    | false =>
      cases hl : lookupTree tmpl q with
      | none => simp only [applyLoop, hf, hl]; exact ih _ hr
      | some c =>
        simp only [applyLoop, hf, hl, Bool.false_eq_true, if_false]
        rw [ih _ hr]
        have hpq : ¬ p = q := fun e => hq e.symm
        simp only [update_file, lookupTree, if_neg hpq]

theorem applyLoop_lookup_of_mem (tmpl : Tree) (f : Path → Bool)
    (plan : List Path) (inst : Tree) (p : Path) (c : Content)
    (hf : f p = false) (hc : lookupTree tmpl p = some c) (hp : p ∈ plan) :
    lookupTree (applyLoop tmpl f plan inst).1 p = some c := by
  induction plan generalizing inst with
  | nil => cases hp
  | cons q rest ih =>
    by_cases hq : q = p
    · subst hq
      simp only [applyLoop, hf, hc, Bool.false_eq_true, if_false]
      by_cases hr : q ∈ rest
      · exact ih _ hr
      · rw [applyLoop_lookup_of_not_mem _ _ _ _ _ hr]
        simp [update_file, lookupTree]
    · have hr : p ∈ rest := by
        rcases List.mem_cons.mp hp with e | m
        · exact absurd e.symm hq
        · exact m
      cases hf2 : f q with
      | true => simp only [applyLoop, hf2, if_pos]; exact ih _ hr
      | false =>
        cases hl : lookupTree tmpl q with
        | none => simp only [applyLoop, hf2, hl]; exact ih _ hr
        | some d => simp only [applyLoop, hf2, hl]; exact ih _ hr

theorem applyLoop_lookup_isSome (tmpl : Tree) (f : Path → Bool)
    (plan : List Path) (inst : Tree) (p : Path)
    (h : (lookupTree inst p).isSome) :
    (lookupTree (applyLoop tmpl f plan inst).1 p).isSome := by
  induction plan generalizing inst with
  | nil => exact h
  | cons q rest ih =>
    cases hf : f q with
    | true => simp only [applyLoop, hf, if_pos]; exact ih _ h
    | false =>
      cases hl : lookupTree tmpl q with
      | none => simp only [applyLoop, hf, hl]; exact ih _ h
      | some c =>
        simp only [applyLoop, hf, hl]
        apply ih
        by_cases hq : p = q <;> simp [update_file, lookupTree, hq, h]

theorem applyLoop_applied_failed (tmpl : Tree) (f : Path → Bool)
    (plan : List Path) (inst : Tree) :
    (applyLoop tmpl f plan inst).2.1 = plan.filter (fun p => !f p)
      ∧ (applyLoop tmpl f plan inst).2.2 = plan.filter f := by
  induction plan generalizing inst with
  | nil => exact ⟨rfl, rfl⟩
  | cons q rest ih =>
    cases hf : f q with
    | true =>
      simp only [applyLoop, hf, if_pos, List.filter_cons, Bool.not_true]
      exact ⟨(ih inst).1, by simp [(ih inst).2]⟩
    | false =>
      cases hl : lookupTree tmpl q with
      | none =>
        simp only [applyLoop, hf, hl, List.filter_cons, Bool.not_false]
        exact ⟨by simp [(ih inst).1], (ih inst).2⟩
      | some c =>
        simp only [applyLoop, hf, hl, List.filter_cons, Bool.not_false]
        refine ⟨by simp [(ih _).1], (ih _).2⟩

/-- Witness for C1 on a concrete five-file template against a three-file
instance (the scenario of the spec's test section). -/
theorem categorize_files_partition_witness :
    ((([(["Dockerfile"], [1]), (["hooks", "run.sh"], [2]), ([".env"], [3]),
       (["a.txt"], [4]), (["b.txt"], [5])] : Tree).map Prod.fst).Nodup
      ∧ ["hooks", "run.sh"] ∈ (([(["Dockerfile"], [1]), (["hooks", "run.sh"], [2]),
          ([".env"], [3]), (["a.txt"], [4]), (["b.txt"], [5])] : Tree).map Prod.fst))
    ∧ pathCount ["hooks", "run.sh"]
        (categorize_files
          [(["Dockerfile"], [1]), (["hooks", "run.sh"], [2]), ([".env"], [3]),
           (["a.txt"], [4]), (["b.txt"], [5])]
          [(["Dockerfile"], [9]), (["a.txt"], [4]), ([".env"], [7])]).allPaths = 1 :=
  ⟨⟨by decide, by decide⟩,
    categorize_files_partition _ _ _ (by decide) (by decide)⟩

/-! ### Lookup in trees with distinct paths -/

theorem lookupTree_eq_some_of_nodup_mem {l : Tree}
    (hN : (l.map Prod.fst).Nodup) {p : Path} {c : Content}
    (h : (p, c) ∈ l) : lookupTree l p = some c := by
  induction l with
  | nil => cases h
  | cons t rest ih =>
    rw [List.map_cons, List.nodup_cons] at hN
    rcases List.mem_cons.mp h with rfl | h
    · simp [lookupTree]
    · have hne : p ≠ t.1 :=
        fun e => hN.1 (e ▸ List.mem_map.mpr ⟨(p, c), h, rfl⟩)
      simp [lookupTree, hne, ih hN.2 h]

theorem snd_eq_of_nodup {l : Tree}
    (hN : (l.map Prod.fst).Nodup) {p : Path} {b c : Content}
    (hb : (p, b) ∈ l) (hc : (p, c) ∈ l) : b = c := by
  have h1 := lookupTree_eq_some_of_nodup_mem hN hb
  have h2 := lookupTree_eq_some_of_nodup_mem hN hc
  rw [h1] at h2
  exact Option.some.inj h2

/-- Every path classified `never_update` has its filename in `NEVER_UPDATE`. -/
theorem name_never_of_mem_never {tmpl inst : Tree} {p : Path}
    (h : p ∈ (categorize_files tmpl inst).never_update) :
    pathName p ∈ NEVER_UPDATE := by
  rw [categorize_files_eq] at h
  rcases List.mem_map.mp h with ⟨t, ht, rfl⟩
  have := List.of_mem_filter ht
  simpa [neverB] using this

theorem mem_new_iff {tmpl inst : Tree} {p : Path} {tc : Content}
    (hmem : (p, tc) ∈ tmpl) (hname : pathName p ∉ NEVER_UPDATE) :
    p ∈ (categorize_files tmpl inst).new ↔ lookupTree inst p = none := by
  rw [categorize_files_eq]
  constructor
  · intro h
    rcases List.mem_map.mp h with ⟨t, ht, rfl⟩
    have h2 := List.of_mem_filter ht
    simp only [newB, neverB, Bool.and_eq_true, Bool.not_eq_true',
      decide_eq_false_iff_not, Option.isNone_iff_eq_none] at h2
    exact h2.2
  · intro h
    refine List.mem_map.mpr ⟨(p, tc), List.mem_filter.mpr ⟨hmem, ?_⟩, rfl⟩
    simp [newB, neverB, Option.isNone_iff_eq_none, hname, h]

theorem mem_changed_iff {tmpl inst : Tree} {p : Path} {tc : Content}
    (hN : (tmpl.map Prod.fst).Nodup) (hmem : (p, tc) ∈ tmpl)
    (hname : pathName p ∉ NEVER_UPDATE) :
    p ∈ (categorize_files tmpl inst).changed ↔
      ∃ c, lookupTree inst p = some c ∧ tc ≠ c := by
  rw [categorize_files_eq]
  constructor
  · intro h
    rcases List.mem_map.mp h with ⟨t, ht, hfst⟩
    rcases List.mem_filter.mp ht with ⟨htl, hB⟩
    have htd : t = (t.1, t.2) := rfl
    rw [htd, hfst] at htl
    have hsnd : t.2 = tc := snd_eq_of_nodup hN htl hmem
    simp only [changedB, Bool.and_eq_true] at hB
    rcases hB with ⟨-, hB⟩
    rw [hfst] at hB
    cases hl : lookupTree inst p with
    | none => rw [hl] at hB; cases hB
    | some c =>
      rw [hl] at hB
      simp only [decide_eq_true_eq] at hB
      exact ⟨c, rfl, hsnd ▸ hB⟩
  · rintro ⟨c, hl, hne⟩
    refine List.mem_map.mpr ⟨(p, tc), List.mem_filter.mpr ⟨hmem, ?_⟩, rfl⟩
    simp [changedB, neverB, hname, hl, hne]

theorem mem_unchanged_iff {tmpl inst : Tree} {p : Path} {tc : Content}
    (hN : (tmpl.map Prod.fst).Nodup) (hmem : (p, tc) ∈ tmpl)
    (hname : pathName p ∉ NEVER_UPDATE) :
    p ∈ (categorize_files tmpl inst).unchanged ↔
      lookupTree inst p = some tc := by
  rw [categorize_files_eq]
  constructor
  · intro h
    rcases List.mem_map.mp h with ⟨t, ht, hfst⟩
    rcases List.mem_filter.mp ht with ⟨htl, hB⟩
    have htd : t = (t.1, t.2) := rfl
    rw [htd, hfst] at htl
    have hsnd : t.2 = tc := snd_eq_of_nodup hN htl hmem
    simp only [unchangedB, Bool.and_eq_true] at hB
    rcases hB with ⟨-, hB⟩
    rw [hfst] at hB
    cases hl : lookupTree inst p with
    | none => rw [hl] at hB; cases hB
    | some c =>
      rw [hl] at hB
      simp only [decide_eq_true_eq] at hB
      rw [hsnd] at hB
      rw [hB]
  · intro h
    refine List.mem_map.mpr ⟨(p, tc), List.mem_filter.mpr ⟨hmem, ?_⟩, rfl⟩
    simp [unchangedB, neverB, hname, h]

/-- A template path not classified `new` or `changed`, whose filename is not
in `NEVER_UPDATE`, is classified `unchanged`, so the instance already holds
the template's bytes. -/
theorem lookup_of_not_plan {tmpl inst : Tree} {p : Path} {tc : Content}
    (hN : (tmpl.map Prod.fst).Nodup) (hmem : (p, tc) ∈ tmpl)
    (hname : pathName p ∉ NEVER_UPDATE)
    (hnp : p ∉ (categorize_files tmpl inst).new
            ++ (categorize_files tmpl inst).changed) :
    lookupTree inst p = some tc := by
  have hp : p ∈ tmpl.map Prod.fst := List.mem_map.mpr ⟨(p, tc), hmem, rfl⟩
  have hcount := count_allPaths_one tmpl inst p hN hp
  have hmemAll : p ∈ (categorize_files tmpl inst).allPaths :=
    mem_of_pathCount_pos (hcount ▸ Nat.one_pos)
  unfold CatResult.allPaths at hmemAll
  rcases List.mem_append.mp hmemAll with h | hnev
  rcases List.mem_append.mp h with h | hunch
  · exact absurd (by simpa [List.mem_append] using h)
      (by simpa [List.mem_append] using hnp)
  · exact (mem_unchanged_iff hN hmem hname).mp hunch
  · exact absurd (name_never_of_mem_never hnev) hname

/-! ### Claim theorems: classification -/

/-- **C3.** For a template file whose filename is not in `NEVER_UPDATE`,
`categorize_files` puts it in `new` exactly when the path is absent from the
instance, in `changed` exactly when both exist with different byte contents,
and in `unchanged` exactly when both exist byte-identical. -/
theorem categorize_files_classification (tmpl inst : Tree) (p : Path)
    (tc : Content) (hN : (tmpl.map Prod.fst).Nodup) (hmem : (p, tc) ∈ tmpl)
    (hname : pathName p ∉ NEVER_UPDATE) :
    (p ∈ (categorize_files tmpl inst).new ↔ lookupTree inst p = none)
    ∧ (p ∈ (categorize_files tmpl inst).changed ↔
        ∃ c, lookupTree inst p = some c ∧ tc ≠ c)
    ∧ (p ∈ (categorize_files tmpl inst).unchanged ↔
        lookupTree inst p = some tc) :=
  ⟨mem_new_iff hmem hname, mem_changed_iff hN hmem hname,
    mem_unchanged_iff hN hmem hname⟩

/-- Witness for C3: a changed file in the spec's five-file scenario. -/
theorem categorize_files_classification_witness :
    ((([(["Dockerfile"], [1]), (["a.txt"], [4])] : Tree).map Prod.fst).Nodup
      ∧ (["Dockerfile"], ([1] : Content)) ∈
          ([(["Dockerfile"], [1]), (["a.txt"], [4])] : Tree)
      ∧ pathName ["Dockerfile"] ∉ NEVER_UPDATE)
    ∧ (["Dockerfile"] ∈ (categorize_files
        [(["Dockerfile"], [1]), (["a.txt"], [4])]
        [(["Dockerfile"], [9]), (["a.txt"], [4])]).changed ↔
        ∃ c, lookupTree [(["Dockerfile"], [9]), (["a.txt"], [4])] ["Dockerfile"]
          = some c ∧ ([1] : Content) ≠ c) :=
  ⟨⟨by decide, by decide, by decide⟩,
    (categorize_files_classification
      [(["Dockerfile"], [1]), (["a.txt"], [4])]
      [(["Dockerfile"], [9]), (["a.txt"], [4])]
      ["Dockerfile"] [1] (by decide) (by decide) (by decide)).2.1⟩

/-! ### Claim theorems: the update run -/

/-- **C2.** A path whose filename is in `NEVER_UPDATE` is classified
`never_update`, is never part of the applied set, and its instance content is
untouched by `update_templates`, whatever byte comparison would say. -/
theorem never_update_never_modified (tmpl inst : Tree)
    (confirm backupFails : Bool) (copyFails : Path → Bool) (p : Path)
    (h : pathName p ∈ NEVER_UPDATE) :
    (p ∈ tmpl.map Prod.fst → p ∈ (categorize_files tmpl inst).never_update)
    ∧ p ∉ (update_templates tmpl inst confirm backupFails copyFails).applied
    ∧ lookupTree
        (update_templates tmpl inst confirm backupFails copyFails).instanceAfter
        p = lookupTree inst p := by
  refine ⟨?_, ?_, ?_⟩
  · intro hp
    rcases List.mem_map.mp hp with ⟨t, ht, rfl⟩
    rw [categorize_files_eq]
    exact List.mem_map.mpr
      ⟨t, List.mem_filter.mpr ⟨ht, by simp [neverB, h]⟩, rfl⟩
  · unfold update_templates
    split
    · simp
    · split
      · simp
      · split
        · simp
        · dsimp only
          intro hmem
          rw [(applyLoop_applied_failed tmpl copyFails _ inst).1] at hmem
          exact name_not_never_of_mem_plan (List.mem_of_mem_filter hmem) h
  · unfold update_templates
    split
    · rfl
    · split
      · rfl
      · split
        · rfl
        · exact applyLoop_lookup_of_not_mem _ _ _ _ _
            (fun hp => name_not_never_of_mem_plan hp h)

/-- Witness for C2: `.env` differs between template and instance, another
file is applied, yet `.env` keeps its instance bytes. -/
theorem never_update_never_modified_witness :
    pathName [".env"] ∈ NEVER_UPDATE
    ∧ (([".env"] ∈ ([([".env"], [1]), (["a"], [2])] : Tree).map Prod.fst →
         [".env"] ∈ (categorize_files [([".env"], [1]), (["a"], [2])]
           [([".env"], [9])]).never_update)
       ∧ [".env"] ∉ (update_templates [([".env"], [1]), (["a"], [2])]
           [([".env"], [9])] true false (fun _ => false)).applied
       ∧ lookupTree (update_templates [([".env"], [1]), (["a"], [2])]
           [([".env"], [9])] true false (fun _ => false)).instanceAfter [".env"]
           = lookupTree [([".env"], [9])] [".env"]) :=
  ⟨by decide,
    never_update_never_modified [([".env"], [1]), (["a"], [2])]
      [([".env"], [9])] true false (fun _ => false) [".env"] (by decide)⟩

/-- **C5.** With the confirmation answered "no", `update_templates` has no
side effects: the instance tree is exactly its pre-run state, no backup is
made, nothing is applied. -/
theorem decline_no_side_effects (tmpl inst : Tree) (backupFails : Bool)
    (copyFails : Path → Bool) :
    (update_templates tmpl inst false backupFails copyFails).instanceAfter
      = inst
    ∧ (update_templates tmpl inst false backupFails copyFails).backup = none
    ∧ (update_templates tmpl inst false backupFails copyFails).applied = []
    ∧ (update_templates tmpl inst false backupFails copyFails).updatedCount
        = 0 := by
  unfold update_templates
  split
  · exact ⟨rfl, rfl, rfl, rfl⟩
  · rw [if_pos rfl]
    exact ⟨rfl, rfl, rfl, rfl⟩

/-- **C10.** The apply phase writes only paths of `new ++ changed`: any other
path keeps its exact bytes across the run, and no instance file is ever
deleted (a present path stays present). -/
theorem apply_frame (tmpl inst : Tree) (confirm backupFails : Bool)
    (copyFails : Path → Bool) (p : Path)
    (h : p ∉ (categorize_files tmpl inst).new
          ++ (categorize_files tmpl inst).changed) :
    lookupTree
      (update_templates tmpl inst confirm backupFails copyFails).instanceAfter
      p = lookupTree inst p
    ∧ (∀ q : Path, (lookupTree inst q).isSome →
        (lookupTree
          (update_templates tmpl inst confirm backupFails copyFails).instanceAfter
          q).isSome) := by
  constructor
  · unfold update_templates
    split
    · rfl
    · split
      · rfl
      · split
        · rfl
        · exact applyLoop_lookup_of_not_mem _ _ _ _ _ h
  · intro q hq
    unfold update_templates
    split
    · exact hq
    · split
      · exact hq
      · split
        · exact hq
        · exact applyLoop_lookup_isSome _ _ _ _ _ hq

/-- Witness for C10: a run that applies `a` leaves the instance-only file `b`
(absent from the template) byte-identical and present. -/
theorem apply_frame_witness :
    (["b"] ∉ (categorize_files [(["a"], [1])] [(["b"], [2])]).new
        ++ (categorize_files [(["a"], [1])] [(["b"], [2])]).changed)
    ∧ lookupTree (update_templates [(["a"], [1])] [(["b"], [2])] true false
        (fun _ => false)).instanceAfter ["b"]
        = lookupTree [(["b"], [2])] ["b"]
    ∧ (∀ q : Path, (lookupTree [(["b"], [2])] q).isSome →
        (lookupTree (update_templates [(["a"], [1])] [(["b"], [2])] true false
          (fun _ => false)).instanceAfter q).isSome) :=
  ⟨by decide,
    (apply_frame [(["a"], [1])] [(["b"], [2])] true false (fun _ => false)
      ["b"] (by decide)).1,
    (apply_frame [(["a"], [1])] [(["b"], [2])] true false (fun _ => false)
      ["b"] (by decide)).2⟩

/-- **C8.** Each planned file is attempted independently: the applied list is
exactly the plan minus the failing copies, the failed list is exactly the
failing copies (each recorded with its path), and every non-failing planned
file really receives the template's bytes — one failure never stops the
rest of the batch. -/
theorem apply_per_file (tmpl inst : Tree) (copyFails : Path → Bool) :
    (update_templates tmpl inst true false copyFails).applied
      = ((categorize_files tmpl inst).new
          ++ (categorize_files tmpl inst).changed).filter (fun p => !copyFails p)
    ∧ (update_templates tmpl inst true false copyFails).failed
      = ((categorize_files tmpl inst).new
          ++ (categorize_files tmpl inst).changed).filter copyFails
    ∧ ∀ p c, p ∈ (categorize_files tmpl inst).new
          ++ (categorize_files tmpl inst).changed →
        copyFails p = false → lookupTree tmpl p = some c →
        lookupTree
          (update_templates tmpl inst true false copyFails).instanceAfter p
          = some c := by
  unfold update_templates
  split
  next h =>
    refine ⟨by rw [h.1, h.2]; rfl, by rw [h.1, h.2]; rfl, ?_⟩
    intro p c hp
    rw [h.1, h.2] at hp
    exact absurd hp (List.not_mem_nil p)
  next h =>
    rw [if_neg (by decide : ¬ (true = false)),
      if_neg (by decide : ¬ (false = true))]
    refine ⟨(applyLoop_applied_failed _ _ _ _).1,
      (applyLoop_applied_failed _ _ _ _).2, ?_⟩
    intro p c hp hf hc
    exact applyLoop_lookup_of_mem _ _ _ _ _ _ hf hc hp

/-- Witness for C8: of a three-file plan the middle copy fails; the other two
are still applied, the failure is recorded, and an applied file holds the
template bytes. -/
theorem apply_per_file_witness :
    (update_templates [(["a"], [1]), (["b"], [2]), (["c"], [3])] [] true false
        (fun p => decide (p = ["b"]))).applied = [["a"], ["c"]]
    ∧ (update_templates [(["a"], [1]), (["b"], [2]), (["c"], [3])] [] true
        false (fun p => decide (p = ["b"]))).failed = [["b"]]
    ∧ lookupTree (update_templates [(["a"], [1]), (["b"], [2]), (["c"], [3])]
        [] true false (fun p => decide (p = ["b"]))).instanceAfter ["c"]
        = some [3] :=
  ⟨by rw [(apply_per_file [(["a"], [1]), (["b"], [2]), (["c"], [3])] []
      (fun p => decide (p = ["b"]))).1]; decide,
   by rw [(apply_per_file [(["a"], [1]), (["b"], [2]), (["c"], [3])] []
      (fun p => decide (p = ["b"]))).2.1]; decide,
   (apply_per_file [(["a"], [1]), (["b"], [2]), (["c"], [3])] []
      (fun p => decide (p = ["b"]))).2.2 ["c"] [3] (by decide) (by decide)
      (by decide)⟩

/-- **C6.** Whenever a run applies at least one file, the backup snapshot
exists and equals the full pre-update instance tree (it was taken before the
apply loop ran); and if backup creation fails, the run aborts with no file
written. -/
theorem backup_before_write (tmpl inst : Tree) (confirm backupFails : Bool)
    (copyFails : Path → Bool) :
    ((update_templates tmpl inst confirm backupFails copyFails).applied ≠ [] →
      (update_templates tmpl inst confirm backupFails copyFails).backup
        = some inst)
    ∧ ((update_templates tmpl inst confirm true copyFails).instanceAfter = inst
       ∧ (update_templates tmpl inst confirm true copyFails).applied = []
       ∧ (update_templates tmpl inst confirm true copyFails).backup = none) := by
  constructor
  · unfold update_templates
    split
    · intro h; exact absurd rfl h
    · split
      · intro h; exact absurd rfl h
      · split
        · intro h; exact absurd rfl h
        · intro h; rfl
  · unfold update_templates
    split
    · exact ⟨rfl, rfl, rfl⟩
    · split
      · exact ⟨rfl, rfl, rfl⟩
      · rw [if_pos rfl]
        exact ⟨rfl, rfl, rfl⟩

/-- Witness for C6: a run that applies one file has the pre-run instance as
backup; the same run with a failing backup writes nothing. -/
theorem backup_before_write_witness :
    (update_templates [(["a"], [1])] [] true false (fun _ => false)).applied
      ≠ []
    ∧ (update_templates [(["a"], [1])] [] true false (fun _ => false)).backup
        = some []
    ∧ (update_templates [(["a"], [1])] [] true true
        (fun _ => false)).instanceAfter = []
    ∧ (update_templates [(["a"], [1])] [] true true (fun _ => false)).applied
        = [] :=
  ⟨by decide,
    (backup_before_write [(["a"], [1])] [] true false (fun _ => false)).1
      (by decide),
    (backup_before_write [(["a"], [1])] [] true true (fun _ => false)).2.1,
    (backup_before_write [(["a"], [1])] [] true true (fun _ => false)).2.2.1⟩

/-! ### Idempotence -/

theorem update_templates_of_no_changes (tmpl inst : Tree)
    (confirm backupFails : Bool) (copyFails : Path → Bool)
    (h1 : (categorize_files tmpl inst).new = [])
    (h2 : (categorize_files tmpl inst).changed = []) :
    update_templates tmpl inst confirm backupFails copyFails
      = ⟨.upToDate, inst, none, [], [], 0, []⟩ := by
  unfold update_templates
  rw [if_pos ⟨h1, h2⟩]

/-- After a confirmed run with no backup failure and no copy failure, every
template file outside the never-update policy holds the template's bytes in
the instance. -/
theorem lookup_after_run (tmpl inst : Tree) (copyFails : Path → Bool)
    (hN : (tmpl.map Prod.fst).Nodup) (hf : ∀ p, copyFails p = false)
    (p : Path) (tc : Content) (hmem : (p, tc) ∈ tmpl)
    (hname : pathName p ∉ NEVER_UPDATE) :
    lookupTree (update_templates tmpl inst true false copyFails).instanceAfter
      p = some tc := by
  have hlt : lookupTree tmpl p = some tc :=
    lookupTree_eq_some_of_nodup_mem hN hmem
  unfold update_templates
  split
  next h =>
    exact lookup_of_not_plan hN hmem hname (by rw [h.1, h.2]; simp)
  next h =>
    rw [if_neg (by decide : ¬ (true = false)),
      if_neg (by decide : ¬ (false = true))]
    by_cases hp : p ∈ (categorize_files tmpl inst).new
        ++ (categorize_files tmpl inst).changed
    · exact applyLoop_lookup_of_mem _ _ _ _ _ _ (hf p) hlt hp
    · have := applyLoop_lookup_of_not_mem tmpl copyFails
        ((categorize_files tmpl inst).new
          ++ (categorize_files tmpl inst).changed) inst p hp
      exact this.trans (lookup_of_not_plan hN hmem hname hp)

theorem map_filter_nil {α β : Type} (l : List α) (B : α → Bool) (f : α → β)
    (h : ∀ t ∈ l, B t = false) : (l.filter B).map f = [] := by
  induction l with
  | nil => rfl
  | cons t rest ih =>
    rw [List.filter_cons, if_neg]
    · exact ih (fun u hu => h u (List.mem_cons_of_mem _ hu))
    · rw [h t (List.mem_cons_self t rest)]
      exact (fun e => Bool.noConfusion e)

/-- A second classification against the instance produced by a clean run
finds nothing new and nothing changed. -/
theorem second_run_no_changes (tmpl inst : Tree) (copyFails : Path → Bool)
    (hN : (tmpl.map Prod.fst).Nodup) (hf : ∀ p, copyFails p = false) :
    (categorize_files tmpl
      (update_templates tmpl inst true false copyFails).instanceAfter).new = []
    ∧ (categorize_files tmpl
        (update_templates tmpl inst true false
          copyFails).instanceAfter).changed = [] := by
  rw [categorize_files_eq]
  constructor
  · apply map_filter_nil
    intro t ht
    by_cases hnev : pathName t.1 ∈ NEVER_UPDATE
    · simp [newB, neverB, hnev]
    · have hmem : (t.1, t.2) ∈ tmpl := by rw [Prod.mk.eta]; exact ht
      have := lookup_after_run tmpl inst copyFails hN hf t.1 t.2 hmem hnev
      simp [newB, this]
  · apply map_filter_nil
    intro t ht
    by_cases hnev : pathName t.1 ∈ NEVER_UPDATE
    · simp [changedB, neverB, hnev]
    · have hmem : (t.1, t.2) ∈ tmpl := by rw [Prod.mk.eta]; exact ht
      have := lookup_after_run tmpl inst copyFails hN hf t.1 t.2 hmem hnev
      simp [changedB, this]

/-- **C4.** If classification finds nothing new and nothing changed, the run
reports up to date with no side effects at all; and a second run right after
a clean confirmed run is exactly such a no-op — it classifies every template
file as `unchanged` or `never_update` and performs zero writes. -/
theorem idempotent_second_run (tmpl inst : Tree) (copyFails : Path → Bool)
    (confirm2 backupFails2 : Bool) (copyFails2 : Path → Bool)
    (hN : (tmpl.map Prod.fst).Nodup) (hf : ∀ p, copyFails p = false) :
    ((categorize_files tmpl inst).new = []
        ∧ (categorize_files tmpl inst).changed = [] →
      update_templates tmpl inst confirm2 backupFails2 copyFails2
        = ⟨.upToDate, inst, none, [], [], 0, []⟩)
    ∧ update_templates tmpl
        (update_templates tmpl inst true false copyFails).instanceAfter
        confirm2 backupFails2 copyFails2
      = ⟨.upToDate,
          (update_templates tmpl inst true false copyFails).instanceAfter,
          none, [], [], 0, []⟩
    ∧ (∀ p, p ∈ tmpl.map Prod.fst →
        p ∈ (categorize_files tmpl
              (update_templates tmpl inst true false
                copyFails).instanceAfter).unchanged
        ∨ p ∈ (categorize_files tmpl
              (update_templates tmpl inst true false
                copyFails).instanceAfter).never_update) := by
  have h2 := second_run_no_changes tmpl inst copyFails hN hf
  refine ⟨fun h => update_templates_of_no_changes _ _ _ _ _ h.1 h.2,
    update_templates_of_no_changes _ _ _ _ _ h2.1 h2.2, ?_⟩
  intro p hp
  have hcount := count_allPaths_one tmpl
    (update_templates tmpl inst true false copyFails).instanceAfter p hN hp
  have hmemAll := mem_of_pathCount_pos (hcount ▸ Nat.one_pos)
  unfold CatResult.allPaths at hmemAll
  rcases List.mem_append.mp hmemAll with h | hnev
  · rcases List.mem_append.mp h with h | hunch
    · rcases List.mem_append.mp h with hnew | hch
      · rw [h2.1] at hnew
        exact absurd hnew (List.not_mem_nil p)
      · rw [h2.2] at hch
        exact absurd hch (List.not_mem_nil p)
    · exact Or.inl hunch
  · exact Or.inr hnev

/-- Witness for C4: first run applies `a`; the second run is a verbatim
no-op. -/
theorem idempotent_second_run_witness :
    ((([(["a"], [1]), ([".env"], [5])] : Tree).map Prod.fst).Nodup
      ∧ ∀ p : Path, (fun _ : Path => false) p = false)
    ∧ update_templates [(["a"], [1]), ([".env"], [5])]
        (update_templates [(["a"], [1]), ([".env"], [5])] [([".env"], [9])]
          true false (fun _ => false)).instanceAfter true false (fun _ => false)
      = ⟨.upToDate,
          (update_templates [(["a"], [1]), ([".env"], [5])] [([".env"], [9])]
            true false (fun _ => false)).instanceAfter,
          none, [], [], 0, []⟩ :=
  ⟨⟨by decide, fun _ => rfl⟩,
    (idempotent_second_run [(["a"], [1]), ([".env"], [5])] [([".env"], [9])]
      (fun _ => false) true false (fun _ => false) (by decide)
      (fun _ => rfl)).2.1⟩

/-! ### Backup naming (`create_backup`) -/

/-- A `datetime.now()` value: calendar fields down to seconds, plus the
microsecond field Python's `datetime` carries. -/
structure DateTime where
  year : Nat
  month : Nat
  day : Nat
  hour : Nat
  minute : Nat
  second : Nat
  microsecond : Nat
deriving DecidableEq, Repr

/-- Zero-padded two-digit rendering, as `%m %d %H %M %S` produce. -/
def pad2 (n : Nat) : String :=
  if n < 10 then "0" ++ toString n else toString n

/-- Zero-padded four-digit rendering, as `%Y` produces for these years. -/
def pad4 (n : Nat) : String :=
  if n < 10 then "000" ++ toString n
  else if n < 100 then "00" ++ toString n
  else if n < 1000 then "0" ++ toString n
  else toString n

/-- `datetime.now().strftime("%Y%m%d_%H%M%S")`: second resolution — the
microsecond field is not rendered. -/
def strftimeTimestamp (t : DateTime) : String :=
  pad4 t.year ++ pad2 t.month ++ pad2 t.day ++ "_" ++ pad2 t.hour
    ++ pad2 t.minute ++ pad2 t.second

/-- The backup directory name `f".claude-yolo.backup.{timestamp}"` built by
`create_backup`, placed as a sibling of the instance directory
(`claude_dir.parent / ...`). -/
def backupDirName (instDirName : String) (t : DateTime) : String :=
  instDirName ++ ".backup." ++ strftimeTimestamp t

/-- Result of `shutil.copytree` to the backup destination. -/
inductive CopyTreeResult where
  | ok (dst : String)
  | fileExistsError
deriving DecidableEq, Repr

/-- `create_backup(claude_dir)`: build the timestamped sibling name and
`shutil.copytree` onto it.  `copytree` is modelled by its documented
behaviour: it raises `FileExistsError` when the destination already exists
(`siblings` lists the names already present in the parent directory).  The
source contains no retry and no sub-second name component. -/
def create_backup (siblings : List String) (instDirName : String)
    (t : DateTime) : CopyTreeResult :=
  if backupDirName instDirName t ∈ siblings then .fileExistsError
  else .ok (backupDirName instDirName t)

/-- **C7, counterexample.** Two snapshot times in the same second (differing
only in microseconds) produce the identical backup name, and the second
`create_backup` hits the existing directory and fails — there is neither
sub-second resolution nor detect-and-retry. -/
theorem create_backup_collision_counterexample :
    (⟨2026, 10, 12, 3, 4, 5, 0⟩ : DateTime)
        ≠ ⟨2026, 10, 12, 3, 4, 5, 999999⟩
    ∧ backupDirName ".claude-yolo" ⟨2026, 10, 12, 3, 4, 5, 0⟩
        = backupDirName ".claude-yolo" ⟨2026, 10, 12, 3, 4, 5, 999999⟩
    ∧ create_backup
        [backupDirName ".claude-yolo" ⟨2026, 10, 12, 3, 4, 5, 0⟩]
        ".claude-yolo" ⟨2026, 10, 12, 3, 4, 5, 999999⟩ = .fileExistsError := by
  refine ⟨by decide, rfl, ?_⟩
  rw [create_backup, if_pos]
  exact List.mem_singleton.mpr rfl

/-- **C7, amended.** The backup is the sibling
`<instance-dir-name>.backup.<YYYYMMDD_HHMMSS>`; the name has only second
resolution, so any two snapshots within the same second get the same name,
and taking the second one fails with `FileExistsError` instead of retrying. -/
theorem backup_name_second_resolution (n : String) (t1 t2 : DateTime)
    (hy : t1.year = t2.year) (hmo : t1.month = t2.month)
    (hd : t1.day = t2.day) (hh : t1.hour = t2.hour)
    (hmi : t1.minute = t2.minute) (hs : t1.second = t2.second) :
    backupDirName n t1 = n ++ ".backup." ++ strftimeTimestamp t1
    ∧ backupDirName n t1 = backupDirName n t2
    ∧ ∀ siblings : List String, backupDirName n t1 ∈ siblings →
        create_backup siblings n t2 = .fileExistsError := by
  have he : backupDirName n t1 = backupDirName n t2 := by
    unfold backupDirName strftimeTimestamp
    rw [hy, hmo, hd, hh, hmi, hs]
  refine ⟨rfl, he, fun siblings hmem => ?_⟩
  rw [create_backup, if_pos (he ▸ hmem)]

/-- Witness for the amended C7 at concrete same-second times. -/
theorem backup_name_second_resolution_witness :
    backupDirName ".claude-yolo" ⟨2026, 10, 12, 3, 4, 5, 17⟩
      = backupDirName ".claude-yolo" ⟨2026, 10, 12, 3, 4, 5, 400000⟩
    ∧ create_backup
        [backupDirName ".claude-yolo" ⟨2026, 10, 12, 3, 4, 5, 17⟩]
        ".claude-yolo" ⟨2026, 10, 12, 3, 4, 5, 400000⟩ = .fileExistsError :=
  ⟨(backup_name_second_resolution ".claude-yolo"
      ⟨2026, 10, 12, 3, 4, 5, 17⟩ ⟨2026, 10, 12, 3, 4, 5, 400000⟩
      rfl rfl rfl rfl rfl rfl).2.1,
   (backup_name_second_resolution ".claude-yolo"
      ⟨2026, 10, 12, 3, 4, 5, 17⟩ ⟨2026, 10, 12, 3, 4, 5, 400000⟩
      rfl rfl rfl rfl rfl rfl).2.2 _ (List.mem_singleton.mpr rfl)⟩

/-! ### The run's report -/

/-- **C9, counterexample.** The warn list the run reports is computed from
`new ++ changed` before the apply phase: a `Dockerfile` whose copy failed is
still listed, so the reported list is not "the list of applied paths whose
filename matches `WARN_BEFORE_UPDATE`" (here it is nonempty while nothing at
all was applied). -/
theorem report_warn_list_counterexample :
    (update_templates [(["Dockerfile"], [1])] [(["Dockerfile"], [9])] true
        false (fun _ => true)).customFiles = [["Dockerfile"]]
    ∧ (update_templates [(["Dockerfile"], [1])] [(["Dockerfile"], [9])] true
        false (fun _ => true)).applied = []
    ∧ pathName ["Dockerfile"] ∈ WARN_BEFORE_UPDATE := by decide

/-- **C9, amended.** A run reports: the warn list = all planned
(`new ++ changed`) paths whose filename is in `WARN_BEFORE_UPDATE`,
regardless of per-file apply success; a single total count of successfully
applied files (not per category); and, when the run completed, the backup
location — all as console output of a `None`-returning function, modelled
here as the fields of `UpdateResult`. -/
theorem report_fields (tmpl inst : Tree) (copyFails : Path → Bool) :
    (update_templates tmpl inst true false copyFails).customFiles
      = ((categorize_files tmpl inst).new
          ++ (categorize_files tmpl inst).changed).filter
          (fun f => decide (pathName f ∈ WARN_BEFORE_UPDATE))
    ∧ (update_templates tmpl inst true false copyFails).updatedCount
      = (((categorize_files tmpl inst).new
          ++ (categorize_files tmpl inst).changed).filter
          (fun p => !copyFails p)).length
    ∧ ((update_templates tmpl inst true false copyFails).outcome = .completed →
        (update_templates tmpl inst true false copyFails).backup = some inst) := by
  unfold update_templates
  split
  next h =>
    refine ⟨by rw [h.1, h.2]; rfl, by rw [h.1, h.2]; rfl, ?_⟩
    intro hc
    exact absurd hc (by exact fun e => Outcome.noConfusion e)
  next h =>
    rw [if_neg (by decide : ¬ (true = false)),
      if_neg (by decide : ¬ (false = true))]
    refine ⟨rfl, ?_, fun _ => rfl⟩
    have := (applyLoop_applied_failed tmpl copyFails
      ((categorize_files tmpl inst).new
        ++ (categorize_files tmpl inst).changed) inst).1
    dsimp only
    rw [this]

/-- Witness for the amended C9 on the failed-Dockerfile run. -/
theorem report_fields_witness :
    (update_templates [(["Dockerfile"], [1])] [(["Dockerfile"], [9])] true
        false (fun _ => true)).customFiles
      = ((categorize_files [(["Dockerfile"], [1])]
            [(["Dockerfile"], [9])]).new
          ++ (categorize_files [(["Dockerfile"], [1])]
            [(["Dockerfile"], [9])]).changed).filter
          (fun f => decide (pathName f ∈ WARN_BEFORE_UPDATE))
    ∧ (update_templates [(["Dockerfile"], [1])] [(["Dockerfile"], [9])] true
          false (fun _ => true)).backup = some [(["Dockerfile"], [9])] :=
  ⟨(report_fields [(["Dockerfile"], [1])] [(["Dockerfile"], [9])]
      (fun _ => true)).1,
   (report_fields [(["Dockerfile"], [1])] [(["Dockerfile"], [9])]
      (fun _ => true)).2.2 (by decide)⟩

end ClaudeYolo
